import Mathlib

/-!
Shallow embedding of `src/utils/csvImport.ts` (a CSV import layer for a
fitness-tracking app) and proofs about it.

Strings are manipulated through `List Char` with structural recursion so
that every definition evaluates by kernel reduction.  Host capabilities of
the JavaScript runtime (the `Date` parser, `crypto.randomUUID`, the wall
clock) are injected as parameters: date parsing is a function
`String → Option String` returning the calendar-day key (`toDateString` in
the source), fresh ids are drawn from a counter threaded through the run,
and `now` is a parameter.  `console.log`/`console.warn` calls are pure
diagnostics and are not modelled.
-/

namespace CsvImport

/-- JS `String.prototype.trim` on a character list (whitespace at both
ends removed). -/
def jsTrimList (l : List Char) : List Char :=
  ((l.dropWhile Char.isWhitespace).reverse.dropWhile Char.isWhitespace).reverse

/-- JS `trim` on a string. -/
def strTrim (s : String) : String :=
  String.mk (jsTrimList s.data)

/-- JS `toLowerCase` (the inputs here are ASCII). -/
def strLower (s : String) : String :=
  String.mk (s.data.map Char.toLower)

/-- JS `String.prototype.split(sep)` restricted to a one-character
separator: `"".split` gives `[""]`, a trailing separator gives a trailing
empty piece. -/
def splitOnChar (sep : Char) : List Char → List (List Char)
  | [] => [[]]
  | c :: cs =>
    let rest := splitOnChar sep cs
    if c == sep then [] :: rest
    else
      match rest with
      | [] => [[c]]
      | r :: rs => (c :: r) :: rs

/-- JS `Array.prototype.join(', ')` as used for header diagnostics. -/
def joinComma : List String → String
  | [] => ""
  | [s] => s
  | s :: rest => s ++ ", " ++ joinComma rest

/-- JS `Array.prototype.join(sep)`. -/
def joinWith (sep : String) : List String → String
  | [] => ""
  | [s] => s
  | s :: rest => s ++ sep ++ joinWith sep rest

/-- Does `l` contain `sub` as a contiguous run?  (Both orders of the JS
`String.prototype.includes` receiver/argument are fixed at the call
sites.) -/
def listHasInfix (sub : List Char) : List Char → Bool
  | [] => sub.isEmpty
  | c :: cs => sub.isPrefixOf (c :: cs) || listHasInfix sub cs

/-- JS `h.includes(sub)`. -/
def strIncludes (h sub : String) : Bool :=
  listHasInfix sub.data h.data

/-- The character loop of `parseCSVLine` (source lines 20-48): `current`
is the field being accumulated, `acc` the fields already pushed; each
pushed field is trimmed as in the source. -/
def parseCSVLineAux : List Char → Bool → List Char → List (List Char) → List (List Char)
  | [], _, current, acc => acc ++ [jsTrimList current]
  | '"' :: '"' :: rest, true, current, acc => parseCSVLineAux rest true (current ++ ['"']) acc
  | '"' :: rest, true, current, acc => parseCSVLineAux rest false current acc
  | '"' :: rest, false, current, acc => parseCSVLineAux rest true current acc
  | c :: rest, inQuotes, current, acc =>
    if c == ',' && !inQuotes then parseCSVLineAux rest inQuotes [] (acc ++ [jsTrimList current])
    else parseCSVLineAux rest inQuotes (current ++ [c]) acc

/-- The final `field.replace(/^"(.*)"$/, '$1')` of `parseCSVLine`: strip
one layer of surrounding double quotes when the field starts and ends
with one (and has length at least 2). -/
def stripQuotes (f : List Char) : List Char :=
  if decide (2 ≤ f.length) && (f.head? == some '"') && (f.getLast? == some '"') then
    (f.drop 1).dropLast
  else f

/-- `parseCSVLine` (source lines 20-52): split one CSV line into trimmed,
quote-stripped fields. -/
def parseCSVLine (line : List Char) : List String :=
  (parseCSVLineAux line false [] []).map (fun f => String.mk (stripQuotes f))

/-- Value of a hexadecimal digit character, if it is one. -/
def hexDigitVal (c : Char) : Option Nat :=
  if c.isDigit then some (c.toNat - '0'.toNat)
  else if 'a' ≤ c ∧ c ≤ 'f' then some (c.toNat - 'a'.toNat + 10)
  else if 'A' ≤ c ∧ c ≤ 'F' then some (c.toNat - 'A'.toNat + 10)
  else none

/-- Is `c` a digit of the given radix (10 or 16 here)? -/
def isRadixDigit (radix : Nat) (c : Char) : Bool :=
  match hexDigitVal c with
  | some v => decide (v < radix)
  | none => false

/-- Value of a digit run in the given radix. -/
def digitsVal (radix : Nat) (ds : List Char) : Nat :=
  ds.foldl (fun acc c => acc * radix + ((hexDigitVal c).getD 0)) 0

/-- JS `parseInt(s)` with no radix argument: skip leading whitespace, an
optional sign, an optional `0x`/`0X` hex prefix, then take the longest
run of digits; `none` models `NaN` (no digits at all). -/
def jsParseInt (s : String) : Option Int :=
  let cs := s.data.dropWhile Char.isWhitespace
  let signed : Bool × List Char :=
    match cs with
    | '-' :: rest => (true, rest)
    | '+' :: rest => (false, rest)
    | _ => (false, cs)
  let prefixed : Nat × List Char :=
    match signed.2 with
    | '0' :: 'x' :: rest => (16, rest)
    | '0' :: 'X' :: rest => (16, rest)
    | _ => (10, signed.2)
  let ds := prefixed.2.takeWhile (isRadixDigit prefixed.1)
  if ds.isEmpty then none
  else
    let v : Int := Int.ofNat (digitsVal prefixed.1 ds)
    some (if signed.1 then -v else v)

/-- The closed set of exercise categories (`Exercise['category']`). -/
inductive Category
  | abs
  | legs
  | arms
  | back
  | shoulders
  | chest
  | cardio
  | fullBody
deriving DecidableEq, Repr

/-- The canonical spelling of each category, as in `validCategories`
(source lines 95 and 236). -/
def categoryName : Category → String
  | .abs => "abs"
  | .legs => "legs"
  | .arms => "arms"
  | .back => "back"
  | .shoulders => "shoulders"
  | .chest => "chest"
  | .cardio => "cardio"
  | .fullBody => "full-body"

/-- `validCategories` as an association from canonical spelling to tag:
`lookup` on it models `validCategories.includes(raw)` followed by the
cast of `raw` to `Exercise['category']`. -/
def canonicalCategories : List (String × Category) :=
  [("abs", .abs), ("legs", .legs), ("arms", .arms), ("back", .back),
   ("shoulders", .shoulders), ("chest", .chest), ("cardio", .cardio),
   ("full-body", .fullBody)]

/-- The `switch (categoryRaw)` synonym table of `parseExercisesCSV`
(source lines 115-167), in source order. -/
def categorySynonyms : List (String × Category) :=
  [("abs", .abs), ("abdominals", .abs), ("core", .abs), ("stomach", .abs),
   ("legs", .legs), ("leg", .legs), ("lower body", .legs), ("quads", .legs),
   ("hamstrings", .legs), ("calves", .legs),
   ("arms", .arms), ("arm", .arms), ("biceps", .arms), ("triceps", .arms),
   ("forearms", .arms),
   ("back", .back), ("lats", .back), ("latissimus", .back),
   ("rhomboids", .back), ("traps", .back),
   ("shoulders", .shoulders), ("shoulder", .shoulders), ("delts", .shoulders),
   ("deltoids", .shoulders),
   ("chest", .chest), ("pecs", .chest), ("pectorals", .chest),
   ("cardio", .cardio), ("cardiovascular", .cardio), ("aerobic", .cardio),
   ("conditioning", .cardio),
   ("full-body", .fullBody), ("full body", .fullBody), ("fullbody", .fullBody),
   ("compound", .fullBody), ("total body", .fullBody)]

/-- The category `switch` of `parseExercisesCSV` (source lines 115-171):
a matching case gives its canonical tag, the `default` branch gives
`full-body`. -/
def normalizeCategory (s : String) : Category :=
  match categorySynonyms.lookup s with
  | some c => c
  | none => .fullBody

/-- Predicate of the `findIndex` call locating the name column
(source lines 66-71). -/
def namePred (h : String) : Bool :=
  h == "name" || h == "exercise" || h == "exercise_name" || strIncludes h "name"

/-- Predicate of the `findIndex` call locating the description column
(source lines 73-77). -/
def descriptionPred (h : String) : Bool :=
  h == "description" || h == "desc" || strIncludes h "description"

/-- Predicate of the `findIndex` call locating the category column
(source lines 79-84). -/
def categoryPred (h : String) : Bool :=
  h == "category" || h == "type" || h == "muscle_group" || strIncludes h "category"

/-- `nameIndex` of `parseExercisesCSV`; `none` models `-1`. -/
def nameIdx (hs : List String) : Option Nat := hs.findIdx? namePred

/-- `descriptionIndex` of `parseExercisesCSV`. -/
def descriptionIdx (hs : List String) : Option Nat := hs.findIdx? descriptionPred

/-- `categoryIndex` of `parseExercisesCSV`. -/
def categoryIdx (hs : List String) : Option Nat := hs.findIdx? categoryPred

/-- `ExerciseCSVRow`: `description || undefined` in the source means the
optional field is absent when blank. -/
structure ExerciseCSVRow where
  name : String
  description : Option String
  category : Category
deriving DecidableEq, Repr

/-- One iteration of the data-row loop of `parseExercisesCSV` (source
lines 97-182): `none` when the row is skipped (blank line or empty
name).  `values[i]?.trim()` is modelled with `getD ""`, collapsing a
missing cell and an empty cell, which the `!name` truthiness test also
does. -/
def processExerciseRow (nIdx : Nat) (dIdx : Option Nat) (cIdx : Nat)
    (rawLine : List Char) : Option ExerciseCSVRow :=
  let line := jsTrimList rawLine
  if line.isEmpty then none
  else
    let values := parseCSVLine line
    let name := ((values.get? nIdx).map strTrim).getD ""
    if name == "" then none
    else
      let categoryRaw : Option String := (values.get? cIdx).map (fun v => strLower (strTrim v))
      let category : Category :=
        match categoryRaw with
        | some raw => normalizeCategory raw
        | none => .fullBody
      let descriptionRaw : Option String :=
        match dIdx with
        | some j => (values.get? j).map strTrim
        | none => some ""
      let description : Option String :=
        match descriptionRaw with
        | some d => if d == "" then none else some d
        | none => none
      some { name := name, description := description, category := category }

/-- `csvContent.trim().split('\n')`. -/
def linesOf (csv : String) : List (List Char) :=
  splitOnChar '\n' (jsTrimList csv.data)

/-- `parseCSVLine(lines[0]).map(h => h.toLowerCase().trim())`. -/
def headersOf (lines : List (List Char)) : List String :=
  (parseCSVLine (lines.headD [])).map (fun h => strTrim (strLower h))

/-- `parseExercisesCSV` (source lines 54-186). -/
def parseExercisesCSV (csv : String) : Except String (List ExerciseCSVRow) :=
  let lines := linesOf csv
  if lines.length < 2 then .error "CSV must have at least a header row and one data row"
  else
    let headers := headersOf lines
    match nameIdx headers with
    | none => .error ("CSV must have a \"name\" column. Found headers: " ++ joinComma headers)
    | some nI =>
      match categoryIdx headers with
      | none => .error ("CSV must have a \"category\" column. Found headers: " ++ joinComma headers)
      | some cI => .ok (lines.tail.filterMap (processExerciseRow nI (descriptionIdx headers) cI))

/-- Predicate locating the date column (source line 195). -/
def datePred (h : String) : Bool :=
  h == "date" || strIncludes h "date"

/-- Predicate locating the exerciseName column (source lines 196-201). -/
def exerciseNamePred (h : String) : Bool :=
  h == "exercisename" || h == "exercise_name" || h == "exercise" ||
    (strIncludes h "exercise" && strIncludes h "name")

/-- Predicate locating the exerciseCategory column (source lines 202-206). -/
def exerciseCategoryPred (h : String) : Bool :=
  h == "exercisecategory" || h == "exercise_category" ||
    (strIncludes h "exercise" && strIncludes h "category")

/-- Predicate locating the setNumber column (source lines 207-212). -/
def setNumberPred (h : String) : Bool :=
  h == "setnumber" || h == "set_number" || h == "set" ||
    (strIncludes h "set" && strIncludes h "number")

/-- Predicate locating the reps column (source line 213). -/
def repsPred (h : String) : Bool :=
  h == "reps" || strIncludes h "reps" || h == "repetitions"

/-- Predicate locating the setNotes column (source lines 214-218). -/
def setNotesPred (h : String) : Bool :=
  h == "setnotes" || h == "set_notes" || (strIncludes h "set" && strIncludes h "notes")

/-- Predicate locating the workoutNotes column (source lines 219-223). -/
def workoutNotesPred (h : String) : Bool :=
  h == "workoutnotes" || h == "workout_notes" ||
    (strIncludes h "workout" && strIncludes h "notes")

/-- `dateIndex` of `parseWorkoutsCSV`. -/
def dateIdx (hs : List String) : Option Nat := hs.findIdx? datePred

/-- `exerciseNameIndex` of `parseWorkoutsCSV`. -/
def exerciseNameIdx (hs : List String) : Option Nat := hs.findIdx? exerciseNamePred

/-- `exerciseCategoryIndex` of `parseWorkoutsCSV`. -/
def exerciseCategoryIdx (hs : List String) : Option Nat := hs.findIdx? exerciseCategoryPred

/-- `setNumberIndex` of `parseWorkoutsCSV`. -/
def setNumberIdx (hs : List String) : Option Nat := hs.findIdx? setNumberPred

/-- `repsIndex` of `parseWorkoutsCSV`. -/
def repsIdx (hs : List String) : Option Nat := hs.findIdx? repsPred

/-- `setNotesIndex` of `parseWorkoutsCSV`. -/
def setNotesIdx (hs : List String) : Option Nat := hs.findIdx? setNotesPred

/-- `workoutNotesIndex` of `parseWorkoutsCSV`. -/
def workoutNotesIdx (hs : List String) : Option Nat := hs.findIdx? workoutNotesPred

/-- An `Exercise` record of `../types`.  Ids are the values of the
injected unique-id capability (`crypto.randomUUID` in the source),
modelled as naturals drawn from a counter; `createdAt` is the injected
`now`. -/
structure Exercise where
  id : Nat
  name : String
  category : Category
  createdAt : Nat
deriving DecidableEq, Repr

/-- The transient set record accumulated per row (source lines 297-303). -/
structure PendingSet where
  exerciseId : Nat
  reps : Int
  notes : Option String
  setNumber : Int
  exerciseName : String
deriving DecidableEq, Repr

/-- The value stored per day key in `workoutMap` (source lines 230-233). -/
structure WorkoutData where
  sets : List PendingSet
  notes : Option String
deriving DecidableEq, Repr

/-- A `WorkoutSet` of `../types` as emitted (set number and exercise
name are stripped, a fresh id is assigned). -/
structure WorkoutSet where
  id : Nat
  exerciseId : Nat
  reps : Int
  notes : Option String
deriving DecidableEq, Repr

/-- A `Workout` of `../types`; `date` is the calendar-day key the
injected date parser produced (`toDateString` in the source). -/
structure Workout where
  id : Nat
  date : String
  sets : List WorkoutSet
  notes : Option String
deriving DecidableEq, Repr

/-- The resolved required and optional workout header columns. -/
structure WorkoutHeaderIdx where
  date : Nat
  exerciseName : Nat
  exerciseCategory : Option Nat
  setNumber : Nat
  reps : Nat
  setNotes : Option Nat
  workoutNotes : Option Nat
deriving DecidableEq, Repr

/-- The header checks of `parseWorkoutsCSV` (source lines 225-228), in
source order: date, exerciseName, reps, setNumber. -/
def resolveWorkoutHeaders (headers : List String) : Except String WorkoutHeaderIdx :=
  match dateIdx headers with
  | none => .error "CSV must have a \"date\" column"
  | some d =>
    match exerciseNameIdx headers with
    | none => .error "CSV must have an \"exerciseName\" column"
    | some en =>
      match repsIdx headers with
      | none => .error "CSV must have a \"reps\" column"
      | some r =>
        match setNumberIdx headers with
        | none => .error "CSV must have a \"setNumber\" column for proper set position tracking"
        | some sn =>
          .ok { date := d, exerciseName := en,
                exerciseCategory := exerciseCategoryIdx headers,
                setNumber := sn, reps := r,
                setNotes := setNotesIdx headers,
                workoutNotes := workoutNotesIdx headers }

/-- `Map.prototype.set`: replace in place when the key is present, else
append at the end (JS maps preserve insertion order). -/
def mapSet {α : Type} (k : String) (v : α) : List (String × α) → List (String × α)
  | [] => [(k, v)]
  | (k', v') :: rest => if k' == k then (k, v) :: rest else (k', v') :: mapSet k v rest

/-- Update the value stored under `k` in place, as mutating the object a
JS `Map.prototype.get` returned does. -/
def updateAssoc {α : Type} (k : String) (f : α → α) : List (String × α) → List (String × α)
  | [] => []
  | (k', v) :: rest => if k' == k then (k', f v) :: rest else (k', v) :: updateAssoc k f rest

/-- The mutable locals of the row loop of `parseWorkoutsCSV` (source
lines 230-236), plus the caller's `exercises` array (`catalog`), which
the source reads once at line 234 and never writes, and the id counter
of the injected unique-id capability. -/
structure ParseState where
  workoutMap : List (String × WorkoutData)
  exerciseMap : List (String × Exercise)
  newExercises : List Exercise
  catalog : List Exercise
  nextId : Nat
deriving DecidableEq, Repr

/-- `new Map(exercises.map(ex => [ex.name.toLowerCase(), ex]))`: on a
duplicate key the later entry wins, which `mapSet` folding reproduces. -/
def initExerciseMap (exercises : List Exercise) : List (String × Exercise) :=
  exercises.foldl (fun m ex => mapSet (strLower ex.name) ex m) []

/-- The state the row loop starts from. -/
def initState (exercises : List Exercise) : ParseState :=
  { workoutMap := [], exerciseMap := initExerciseMap exercises,
    newExercises := [], catalog := exercises, nextId := 0 }

/-- `values[i]?.trim()` where the result then meets a truthiness test:
a missing cell (`undefined`) and an empty cell coincide. -/
def optField (values : List String) (i : Nat) : String :=
  ((values.get? i).map strTrim).getD ""

/-- The category given to a newly created exercise (source lines
276-283): the raw cell must equal one of the eight canonical spellings
(`validCategories.includes`), otherwise the default `full-body`; the
synonym table of the exercise importer is not consulted here. -/
def newExerciseCategory (idx : WorkoutHeaderIdx) (values : List String) : Category :=
  match idx.exerciseCategory with
  | none => .fullBody
  | some j =>
    match (values.get? j).map (fun v => strLower (strTrim v)) with
    | none => .fullBody
    | some raw =>
      match canonicalCategories.lookup raw with
      | some c => c
      | none => .fullBody

/-- Find-or-create of source lines 272-294: look the trimmed name up
case-insensitively in the working map; when absent, mint a new
`Exercise`, register it and append it to `newExercises`. -/
def findOrCreateExercise (idx : WorkoutHeaderIdx) (now : Nat) (values : List String)
    (exerciseName : String) (st : ParseState) : Exercise × ParseState :=
  match st.exerciseMap.lookup (strLower exerciseName) with
  | some ex => (ex, st)
  | none =>
    let ex : Exercise :=
      { id := st.nextId, name := exerciseName,
        category := newExerciseCategory idx values, createdAt := now }
    (ex, { st with exerciseMap := mapSet (strLower exerciseName) ex st.exerciseMap,
                   newExercises := st.newExercises ++ [ex],
                   nextId := st.nextId + 1 })

/-- Source lines 305-312: ensure the day entry exists, then push the set. -/
def addSetToDay (dateKey : String) (s : PendingSet) (st : ParseState) : ParseState :=
  if (st.workoutMap.lookup dateKey).isSome then
    { st with workoutMap :=
        updateAssoc dateKey (fun d => { d with sets := d.sets ++ [s] }) st.workoutMap }
  else
    { st with workoutMap := st.workoutMap ++ [(dateKey, { sets := [s], notes := none })] }

/-- JS truthiness of the day's current notes value. -/
def optFalsy : Option String → Bool
  | none => true
  | some s => s == ""

/-- Source lines 314-320: adopt the row's workoutNotes for the day when
it is truthy and the day has none yet. -/
def updateWorkoutNotes (idx : WorkoutHeaderIdx) (values : List String) (dateKey : String)
    (st : ParseState) : ParseState :=
  match idx.workoutNotes with
  | none => st
  | some j =>
    let wn := optField values j
    if wn == "" then st
    else
      { st with workoutMap :=
          (updateAssoc dateKey
            (fun d => if optFalsy d.notes then { d with notes := some wn } else d)
            st.workoutMap) }

/-- `setNotesIndex >= 0 ? values[setNotesIndex]?.trim() : undefined`. -/
def setNotesVal (idx : WorkoutHeaderIdx) (values : List String) : Option String :=
  match idx.setNotes with
  | some j => (values.get? j).map strTrim
  | none => none

/-- One iteration of the data-row loop of `parseWorkoutsCSV` (source
lines 238-321), at 0-indexed line `i` (errors cite `i + 1`).  `pd` is
the injected host date parser returning the calendar-day key. -/
def processWorkoutRow (idx : WorkoutHeaderIdx) (pd : String → Option String) (now : Nat)
    (i : Nat) (rawLine : List Char) (st : ParseState) : Except String ParseState :=
  let line := jsTrimList rawLine
  if line.isEmpty then .ok st
  else
    let values := parseCSVLine line
    let dateStr := optField values idx.date
    let exerciseName := optField values idx.exerciseName
    let repsStr := optField values idx.reps
    let setNumberStr := optField values idx.setNumber
    if dateStr == "" || exerciseName == "" || repsStr == "" || setNumberStr == "" then .ok st
    else
      match pd dateStr with
      | none => .error ("Invalid date \"" ++ dateStr ++ "\" on line " ++ toString (i + 1))
      | some dateKey =>
        match jsParseInt repsStr with
        | none => .error ("Invalid reps \"" ++ repsStr ++ "\" on line " ++ toString (i + 1))
        | some reps =>
          if reps < 0 then
            .error ("Invalid reps \"" ++ repsStr ++ "\" on line " ++ toString (i + 1))
          else
            match jsParseInt setNumberStr with
            | none =>
              .error ("Invalid set number \"" ++ setNumberStr ++ "\" on line " ++
                toString (i + 1) ++ ". Set number must be 1 or greater.")
            | some setNumber =>
              if setNumber < 1 then
                .error ("Invalid set number \"" ++ setNumberStr ++ "\" on line " ++
                  toString (i + 1) ++ ". Set number must be 1 or greater.")
              else
                let found := findOrCreateExercise idx now values exerciseName st
                let pset : PendingSet :=
                  { exerciseId := found.1.id, reps := reps,
                    notes := setNotesVal idx values, setNumber := setNumber,
                    exerciseName := exerciseName }
                .ok (updateWorkoutNotes idx values dateKey (addSetToDay dateKey pset found.2))

/-- The data-row loop (`for i = 1; i < lines.length; i++`). -/
def runWorkoutRows (idx : WorkoutHeaderIdx) (pd : String → Option String) (now : Nat) :
    List (List Char) → Nat → ParseState → Except String ParseState
  | [], _, st => .ok st
  | l :: ls, i, st =>
    match processWorkoutRow idx pd now i l st with
    | .error e => .error e
    | .ok st' => runWorkoutRows idx pd now ls (i + 1) st'

/-- One step of the per-day grouping pass (source lines 326-333): push
the set onto its exercise-name group, creating the group at the end on
first sight. -/
def addToGroup (g : List (String × List PendingSet)) (s : PendingSet) :
    List (String × List PendingSet) :=
  match g with
  | [] => [(s.exerciseName, [s])]
  | (k, ss) :: rest =>
    if k == s.exerciseName then (k, ss ++ [s]) :: rest else (k, ss) :: addToGroup rest s

/-- `exerciseGroups` of one day, in insertion order. -/
def groupByName (sets : List PendingSet) : List (String × List PendingSet) :=
  sets.foldl addToGroup []

/-- The comparator `(a, b) => a.setNumber - b.setNumber` as the "less or
equal" test of a stable sort (JS `Array.prototype.sort` is stable). -/
def setNumLE (a b : PendingSet) : Bool :=
  decide (a.setNumber ≤ b.setNumber)

/-- Insert `x` before the first element it is `le`-below-or-equal to:
the insertion step of a stable sort. -/
def stableInsert {α : Type} (le : α → α → Bool) (x : α) : List α → List α
  | [] => [x]
  | y :: ys => if le x y then x :: y :: ys else y :: stableInsert le x ys

/-- A stable comparator sort (insertion sort).  JS `Array.prototype.sort`
is required to be stable, which this realizes; it is structurally
recursive so that concrete runs reduce in the kernel. -/
def stableSort {α : Type} (le : α → α → Bool) : List α → List α
  | [] => []
  | x :: xs => stableInsert le x (stableSort le xs)

/-- Source lines 335-346: sort each exercise group by set number and
flatten the groups in insertion order. -/
def buildOrderedSets (sets : List PendingSet) : List PendingSet :=
  ((groupByName sets).map (fun g => stableSort setNumLE g.2)).flatten

/-- Build one `Workout` from a day entry (source lines 324-354),
assigning the workout and its sets fresh ids from the counter; returns
the workout and the advanced counter. -/
def buildWorkout (nextId : Nat) (entry : String × WorkoutData) : Workout × Nat :=
  let ordered := buildOrderedSets entry.2.sets
  let sets := ordered.enum.map (fun p =>
    { id := nextId + 1 + p.1, exerciseId := p.2.exerciseId,
      reps := p.2.reps, notes := p.2.notes : WorkoutSet })
  ({ id := nextId, date := entry.1, sets := sets, notes := entry.2.notes },
   nextId + 1 + ordered.length)

/-- `Array.from(workoutMap.entries()).map(...)` in insertion order. -/
def buildWorkouts (nextId : Nat) : List (String × WorkoutData) → List Workout
  | [] => []
  | e :: es =>
    let w := buildWorkout nextId e
    w.1 :: buildWorkouts w.2 es

/-- `parseWorkoutsCSV` (source lines 188-357). -/
def parseWorkoutsCSV (pd : String → Option String) (now : Nat) (csv : String)
    (exercises : List Exercise) : Except String (List Workout × List Exercise) :=
  let lines := linesOf csv
  if lines.length < 2 then .error "CSV must have at least a header row and one data row"
  else
    match resolveWorkoutHeaders (headersOf lines) with
    | .error e => .error e
    | .ok idx =>
      match runWorkoutRows idx pd now lines.tail 1 (initState exercises) with
      | .error e => .error e
      | .ok st => .ok (buildWorkouts st.nextId st.workoutMap, st.newExercises)

/-- The completeness-and-validity test of one data row, as §8 of the
spec words it: non-blank after trim, the four required cells present
and non-empty, a parseable date, reps a non-negative integer, set
number an integer at least 1. -/
def rowAccepted (idx : WorkoutHeaderIdx) (pd : String → Option String)
    (rawLine : List Char) : Bool :=
  let line := jsTrimList rawLine
  if line.isEmpty then false
  else
    let values := parseCSVLine line
    let dateStr := optField values idx.date
    let exerciseName := optField values idx.exerciseName
    let repsStr := optField values idx.reps
    let setNumberStr := optField values idx.setNumber
    if dateStr == "" || exerciseName == "" || repsStr == "" || setNumberStr == "" then false
    else
      (pd dateStr).isSome &&
        (match jsParseInt repsStr with
         | some r => decide (0 ≤ r)
         | none => false) &&
        (match jsParseInt setNumberStr with
         | some n => decide (1 ≤ n)
         | none => false)

/-- `generateExerciseCSVTemplate` (source lines 359-374). -/
def generateExerciseCSVTemplate : String :=
  joinWith "\n"
    (joinWith "," ["name", "category", "description"] ::
      ([["Push-ups", "arms", "Standard push-ups for chest and arms"],
        ["Squats", "legs", "Bodyweight squats for legs"],
        ["Plank", "abs", "Core stability exercise"],
        ["Pull-ups", "back", "Upper body pulling exercise"]].map
        (fun row => joinWith "," (row.map (fun f => "\"" ++ f ++ "\"")))))

/-- `generateWorkoutCSVTemplate` (source lines 376-394). -/
def generateWorkoutCSVTemplate : String :=
  joinWith "\n"
    (joinWith ","
        ["date", "exerciseName", "exerciseCategory", "setNumber", "reps", "setNotes",
         "workoutNotes"] ::
      ([["2024-01-15", "Push-ups", "arms", "1", "15", "Felt strong", "Great morning workout"],
        ["2024-01-15", "Push-ups", "arms", "2", "12", "Getting tired", "Great morning workout"],
        ["2024-01-15", "Push-ups", "arms", "3", "10", "Final set", "Great morning workout"],
        ["2024-01-15", "Squats", "legs", "1", "20", "Good form", "Great morning workout"],
        ["2024-01-15", "Squats", "legs", "2", "18", "Legs burning", "Great morning workout"],
        ["2024-01-16", "Plank", "abs", "1", "30", "Held for 30 seconds", "Quick abs session"],
        ["2024-01-16", "Plank", "abs", "2", "25", "Shorter hold", "Quick abs session"]].map
        (fun row => joinWith "," (row.map (fun f => "\"" ++ f ++ "\"")))))

/-- A concrete instantiation of the injected host date parser: accepts
exactly the ISO `YYYY-MM-DD` date-only shape (which is what the inputs
in this development use) and returns the string itself as the
calendar-day key, since distinct date-only strings denote distinct
days. -/
def isoParseDate (s : String) : Option String :=
  if decide (s.data.length = 10) && (s.data.take 4).all Char.isDigit &&
      (s.data.get? 4 == some '-') && ((s.data.drop 5).take 2).all Char.isDigit &&
      (s.data.get? 7 == some '-') && ((s.data.drop 8).take 2).all Char.isDigit then
    some s
  else none

end CsvImport

deriving instance DecidableEq for Except

namespace CsvImport

/-- Append `x` unless already present: one step of first-seen
deduplication. -/
def insertIfNew {β : Type} [BEq β] (acc : List β) (x : β) : List β :=
  if acc.contains x then acc else acc ++ [x]

/-- The distinct values of `l` in the order each was first seen. -/
def dedupFirst {β : Type} [BEq β] (l : List β) : List β :=
  l.foldl insertIfNew []

/-- `l` is grouped by `key`: it equals its own regrouping, i.e. the
concatenation, over the distinct key values in first-seen order, of the
elements carrying that key in their original order.  Exactly the lists
in which elements sharing a key are consecutive. -/
def groupedKeys {α β : Type} [BEq β] (key : α → β) (l : List α) : Prop :=
  l = ((dedupFirst (l.map key)).map (fun k => l.filter (fun s => key s == k))).flatten

/-- `r` is the index of the first header satisfying `p` (`none` when no
header does): the semantics of a single left-to-right `findIndex`
scan. -/
def firstMatch (p : String → Bool) (hs : List String) : Option Nat → Prop
  | some i =>
    ∃ h : i < hs.length,
      p (hs.get ⟨i, h⟩) = true ∧
        ∀ j, ∀ hj : j < hs.length, j < i → p (hs.get ⟨j, hj⟩) = false
  | none => ∀ h ∈ hs, p h = false

/-- The trimmed cell of a raw CSV line at a resolved column index (empty
when the cell is missing), as the workout row loop reads it. -/
def rowFieldAt (i : Nat) (raw : List Char) : String :=
  optField (parseCSVLine (jsTrimList raw)) i

/-- `isNaN(reps) || reps < 0` over the model of `parseInt`. -/
def repsFieldRejected (s : String) : Bool :=
  match jsParseInt s with
  | none => true
  | some v => decide (v < 0)

/-- `isNaN(setNumber) || setNumber < 1` over the model of `parseInt`. -/
def setNumberFieldRejected (s : String) : Bool :=
  match jsParseInt s with
  | none => true
  | some v => decide (v < 1)

/-- Did the computation abort with an error? -/
def isError {ε α : Type} : Except ε α → Bool
  | .error _ => true
  | .ok _ => false

/-- The canonical spelling of every category is a key of the synonym
table mapped to that category. -/
theorem categoryName_mem_synonyms (c : Category) :
    categorySynonyms.lookup (categoryName c) = some c := by
  cases c <;> rfl

/-- C5: Category normalization is a total, idempotent function on
lower-cased trimmed tokens: every string in the synonym table maps to
its canonical category, each of the eight canonical categories maps to
itself, every string outside the table maps to `full-body` without
failing, and normalizing a normalized value changes nothing. -/
theorem C5_normalizeCategory_total_idempotent :
    (∀ p ∈ categorySynonyms, normalizeCategory p.1 = p.2) ∧
    (∀ c : Category, normalizeCategory (categoryName c) = c) ∧
    (∀ s : String, s ∉ categorySynonyms.map Prod.fst → normalizeCategory s = .fullBody) ∧
    (∀ s : String, normalizeCategory (categoryName (normalizeCategory s)) = normalizeCategory s) := by
  refine ⟨by decide, ?_, ?_, ?_⟩
  · intro c
    rw [normalizeCategory, categoryName_mem_synonyms]
  · intro s hs
    rw [normalizeCategory, List.lookup_eq_none_iff.mpr]
    intro p hp
    simp only [bne_iff_ne, ne_eq]
    intro hse
    exact hs (hse ▸ List.mem_map_of_mem Prod.fst hp)
  · intro s
    rw [normalizeCategory, categoryName_mem_synonyms]

set_option maxRecDepth 40000 in
/-- C8: parsing the generated workout template with an empty catalog
succeeds and yields exactly two workouts — 2024-01-15 with five sets
(the three Push-ups sets, then the two Squats sets) and 2024-01-16 with
two Plank sets — and exactly three new exercises. -/
theorem C8_template_roundtrip :
    (parseWorkoutsCSV isoParseDate 0 generateWorkoutCSVTemplate []).map
        (fun r =>
          (r.1.map (fun w => (w.date, w.sets.map (fun s => s.exerciseId))),
           r.2.map (fun e => (e.id, e.name)))) =
      .ok ([("2024-01-15", [0, 0, 0, 1, 1]), ("2024-01-16", [2, 2])],
           [(0, "Push-ups"), (1, "Squats"), (2, "Plank")]) := by
  decide

/-- `findIndex` semantics: the returned index is the first (leftmost)
position whose header satisfies the predicate, and `none` means no
header does. -/
theorem firstMatch_findIdx (p : String → Bool) (hs : List String) :
    firstMatch p hs (hs.findIdx? p) := by
  cases h : hs.findIdx? p with
  | none =>
    intro x hx
    exact List.findIdx?_eq_none_iff.mp h x hx
  | some i =>
    obtain ⟨hlt, hp, hj⟩ := List.findIdx?_eq_some_iff_getElem.mp h
    exact ⟨hlt, by simpa using hp, fun j hjlen hji => by simpa using hj j hji⟩

/-- C3 counterexample: with the header row `myname,name,category`, the
name role resolves to column 0 (`myname`, a mere substring match) even
though column 1 is the exact candidate `name`; consequently the parsed
exercise is named from column 0 (`A`), not column 1 (`B`). -/
theorem C3_counterexample :
    nameIdx ["myname", "name", "category"] = some 0 ∧
    parseExercisesCSV "myname,name,category\nA,B,abs" =
      .ok [{ name := "A", description := none, category := Category.abs }] := by
  exact ⟨by decide, by decide⟩

/-- C3 amended: each semantic role is resolved by a single left-to-right
scan in which every header is tested against the role's exact-match
candidates and substring markers together; the first header satisfying
any of them wins (so an earlier substring match beats a later exact
match), and the result is `none` (`-1`) when no header matches. -/
theorem C3_header_resolution_first_match :
    (∀ hs, firstMatch namePred hs (nameIdx hs)) ∧
    (∀ hs, firstMatch descriptionPred hs (descriptionIdx hs)) ∧
    (∀ hs, firstMatch categoryPred hs (categoryIdx hs)) ∧
    (∀ hs, firstMatch datePred hs (dateIdx hs)) ∧
    (∀ hs, firstMatch exerciseNamePred hs (exerciseNameIdx hs)) ∧
    (∀ hs, firstMatch exerciseCategoryPred hs (exerciseCategoryIdx hs)) ∧
    (∀ hs, firstMatch setNumberPred hs (setNumberIdx hs)) ∧
    (∀ hs, firstMatch repsPred hs (repsIdx hs)) ∧
    (∀ hs, firstMatch setNotesPred hs (setNotesIdx hs)) ∧
    (∀ hs, firstMatch workoutNotesPred hs (workoutNotesIdx hs)) :=
  ⟨fun hs => firstMatch_findIdx namePred hs,
   fun hs => firstMatch_findIdx descriptionPred hs,
   fun hs => firstMatch_findIdx categoryPred hs,
   fun hs => firstMatch_findIdx datePred hs,
   fun hs => firstMatch_findIdx exerciseNamePred hs,
   fun hs => firstMatch_findIdx exerciseCategoryPred hs,
   fun hs => firstMatch_findIdx setNumberPred hs,
   fun hs => firstMatch_findIdx repsPred hs,
   fun hs => firstMatch_findIdx setNotesPred hs,
   fun hs => firstMatch_findIdx workoutNotesPred hs⟩

/-- C7 counterexample: a workout file whose headers resolve no date
column is rejected with the fixed message `CSV must have a "date"
column`, which does not include the headers actually found (`foo`,
`bar`). -/
theorem C7_counterexample :
    parseWorkoutsCSV isoParseDate 0 "foo,bar\nx,y" [] =
      .error "CSV must have a \"date\" column" ∧
    strIncludes "CSV must have a \"date\" column" "foo" = false ∧
    strIncludes "CSV must have a \"date\" column" "bar" = false := by
  exact ⟨by decide, by decide, by decide⟩

/-- C7 amended: when a required header role is unresolved the import
fails naming the missing column; the exercise importer's message also
lists the headers actually found, while the workout importer's messages
are fixed strings without the header list. -/
theorem C7_missing_column_errors :
    (∀ csv, ¬ (linesOf csv).length < 2 →
      nameIdx (headersOf (linesOf csv)) = none →
      parseExercisesCSV csv =
        .error ("CSV must have a \"name\" column. Found headers: " ++
          joinComma (headersOf (linesOf csv)))) ∧
    (∀ csv nI, ¬ (linesOf csv).length < 2 →
      nameIdx (headersOf (linesOf csv)) = some nI →
      categoryIdx (headersOf (linesOf csv)) = none →
      parseExercisesCSV csv =
        .error ("CSV must have a \"category\" column. Found headers: " ++
          joinComma (headersOf (linesOf csv)))) ∧
    (∀ hs, dateIdx hs = none →
      resolveWorkoutHeaders hs = .error "CSV must have a \"date\" column") ∧
    (∀ hs d, dateIdx hs = some d → exerciseNameIdx hs = none →
      resolveWorkoutHeaders hs = .error "CSV must have an \"exerciseName\" column") ∧
    (∀ hs d en, dateIdx hs = some d → exerciseNameIdx hs = some en →
      repsIdx hs = none →
      resolveWorkoutHeaders hs = .error "CSV must have a \"reps\" column") ∧
    (∀ hs d en r, dateIdx hs = some d → exerciseNameIdx hs = some en →
      repsIdx hs = some r → setNumberIdx hs = none →
      resolveWorkoutHeaders hs =
        .error "CSV must have a \"setNumber\" column for proper set position tracking") ∧
    (∀ pd now csv ex e, ¬ (linesOf csv).length < 2 →
      resolveWorkoutHeaders (headersOf (linesOf csv)) = .error e →
      parseWorkoutsCSV pd now csv ex = .error e) := by
  refine ⟨?_, ?_, ?_, ?_, ?_, ?_, ?_⟩
  · intro csv h2 hn
    simp only [parseExercisesCSV, if_neg h2, hn]
  · intro csv nI h2 hn hc
    simp only [parseExercisesCSV, if_neg h2, hn, hc]
  · intro hs hd
    simp only [resolveWorkoutHeaders, hd]
  · intro hs d hd hen
    simp only [resolveWorkoutHeaders, hd, hen]
  · intro hs d en hd hen hr
    simp only [resolveWorkoutHeaders, hd, hen, hr]
  · intro hs d en r hd hen hr hsn
    simp only [resolveWorkoutHeaders, hd, hen, hr, hsn]
  · intro pd now csv ex e h2 hres
    simp only [parseWorkoutsCSV, if_neg h2, hres]

/-- C6 counterexample: a new exercise whose exerciseCategory cell is the
synonym `core` is created with category `full-body`, although the
synonym table maps `core` to `abs` — the workout importer does not
consult the Category Normalizer. -/
theorem C6_counterexample :
    normalizeCategory "core" = Category.abs ∧
    parseWorkoutsCSV isoParseDate 0
        "date,exerciseName,exerciseCategory,setNumber,reps\n2024-01-15,Crunches,core,1,10" [] =
      .ok ([{ id := 1, date := "2024-01-15",
              sets := [{ id := 2, exerciseId := 0, reps := 10, notes := none }],
              notes := none }],
           [{ id := 0, name := "Crunches", category := Category.fullBody, createdAt := 0 }]) := by
  exact ⟨by decide, by decide⟩

/-- C6 amended: on a cache miss the workout importer synthesizes a new
`Exercise` with the current fresh id, the given name and
`createdAt = now`, registers it and appends it to `newExercises`; its
category is the exerciseCategory cell only when that cell, trimmed and
lower-cased, is exactly one of the eight canonical spellings, and
`full-body` otherwise (missing column, missing cell, or any
non-canonical value, synonyms included) — the synonym table plays no
part here.  A cache hit (case-insensitive, including exercises created
earlier in the same run) returns the cached exercise unchanged. -/
theorem C6_new_exercise_category :
    (∀ idx values, idx.exerciseCategory = none →
      newExerciseCategory idx values = Category.fullBody) ∧
    (∀ (idx : WorkoutHeaderIdx) values j, idx.exerciseCategory = some j →
      values.get? j = none →
      newExerciseCategory idx values = Category.fullBody) ∧
    (∀ (idx : WorkoutHeaderIdx) values j v, idx.exerciseCategory = some j →
      values.get? j = some v →
      canonicalCategories.lookup (strLower (strTrim v)) = none →
      newExerciseCategory idx values = Category.fullBody) ∧
    (∀ (idx : WorkoutHeaderIdx) values j v c, idx.exerciseCategory = some j →
      values.get? j = some v →
      canonicalCategories.lookup (strLower (strTrim v)) = some c →
      newExerciseCategory idx values = c) ∧
    (∀ idx now values name st ex,
      st.exerciseMap.lookup (strLower name) = some ex →
      findOrCreateExercise idx now values name st = (ex, st)) ∧
    (∀ idx now values name st,
      st.exerciseMap.lookup (strLower name) = none →
      findOrCreateExercise idx now values name st =
        ({ id := st.nextId, name := name,
           category := newExerciseCategory idx values, createdAt := now },
         { st with
             exerciseMap := mapSet (strLower name)
               { id := st.nextId, name := name,
                 category := newExerciseCategory idx values, createdAt := now }
               st.exerciseMap,
             newExercises := st.newExercises ++
               [{ id := st.nextId, name := name,
                  category := newExerciseCategory idx values, createdAt := now }],
             nextId := st.nextId + 1 })) := by
  refine ⟨?_, ?_, ?_, ?_, ?_, ?_⟩
  · intro idx values h
    simp only [newExerciseCategory, h]
  · intro idx values j hj hv
    simp only [newExerciseCategory, hj, hv, Option.map_none']
  · intro idx values j v hj hv hl
    simp only [newExerciseCategory, hj, hv, Option.map_some', hl]
  · intro idx values j v c hj hv hl
    simp only [newExerciseCategory, hj, hv, Option.map_some', hl]
  · intro idx now values name st ex h
    simp only [findOrCreateExercise, h]
  · intro idx now values name st h
    simp only [findOrCreateExercise, h]

/-- C4 counterexample: the reps cell `12abc` is not an integer string,
yet the import accepts it (as 12, the longest integer prefix `parseInt`
reads) instead of aborting. -/
theorem C4_counterexample :
    jsParseInt "12abc" = some 12 ∧
    parseWorkoutsCSV isoParseDate 0
        "date,exerciseName,setNumber,reps\n2024-01-15,Push-ups,1,12abc" [] =
      .ok ([{ id := 1, date := "2024-01-15",
              sets := [{ id := 2, exerciseId := 0, reps := 12, notes := none }],
              notes := none }],
           [{ id := 0, name := "Push-ups", category := Category.fullBody, createdAt := 0 }]) := by
  exact ⟨by decide, by decide⟩

/-- C4 amended: for a complete data row with a parseable date, the run
aborts with a fatal error citing the 1-indexed line number if
and only if `parseInt` finds no integer prefix in the reps cell or the
prefix is negative, or finds no integer prefix in the setNumber cell or
the prefix is below 1; a cell with a valid integer prefix followed by
garbage (such as `12abc`) is accepted with that prefix. -/
theorem C4_reps_setNumber_validation :
    ∀ (idx : WorkoutHeaderIdx) (pd : String → Option String) (now i : Nat)
      (raw : List Char) (st : ParseState),
    (jsTrimList raw).isEmpty = false →
    rowFieldAt idx.date raw ≠ "" →
    rowFieldAt idx.exerciseName raw ≠ "" →
    rowFieldAt idx.reps raw ≠ "" →
    rowFieldAt idx.setNumber raw ≠ "" →
    (pd (rowFieldAt idx.date raw)).isSome = true →
    (isError (processWorkoutRow idx pd now i raw st) =
        (repsFieldRejected (rowFieldAt idx.reps raw) ||
          setNumberFieldRejected (rowFieldAt idx.setNumber raw))) ∧
      (repsFieldRejected (rowFieldAt idx.reps raw) = true →
        processWorkoutRow idx pd now i raw st =
          .error ("Invalid reps \"" ++ rowFieldAt idx.reps raw ++ "\" on line " ++
            toString (i + 1))) ∧
      (repsFieldRejected (rowFieldAt idx.reps raw) = false →
        setNumberFieldRejected (rowFieldAt idx.setNumber raw) = true →
        processWorkoutRow idx pd now i raw st =
          .error ("Invalid set number \"" ++ rowFieldAt idx.setNumber raw ++ "\" on line " ++
            toString (i + 1) ++ ". Set number must be 1 or greater.")) := by
  intro idx pd now i raw st h0 h1 h2 h3 h4 h5
  simp only [rowFieldAt] at h1 h2 h3 h4 h5 ⊢
  rw [Option.isSome_iff_exists] at h5
  obtain ⟨dk, hdk⟩ := h5
  simp only [processWorkoutRow, h0, Bool.false_eq_true, if_false,
    beq_eq_false_iff_ne.mpr h1, beq_eq_false_iff_ne.mpr h2,
    beq_eq_false_iff_ne.mpr h3, beq_eq_false_iff_ne.mpr h4,
    Bool.or_self, Bool.or_false, Bool.false_or, hdk]
  cases hr : jsParseInt (optField (parseCSVLine (jsTrimList raw)) idx.reps) with
  | none =>
    simp [repsFieldRejected, hr, isError]
  | some v =>
    simp only [repsFieldRejected, hr]
    by_cases hv : v < 0
    · simp [if_pos hv, decide_eq_true hv, isError]
    · simp only [if_neg hv, decide_eq_false hv, Bool.false_or]
      cases hn : jsParseInt (optField (parseCSVLine (jsTrimList raw)) idx.setNumber) with
      | none =>
        simp [setNumberFieldRejected, hn, isError]
      | some w =>
        simp only [setNumberFieldRejected, hn]
        by_cases hw : w < 1
        · simp [if_pos hw, decide_eq_true hw, isError]
        · simp [if_neg hw, decide_eq_false hw, isError]

/-- Instance of `C4_reps_setNumber_validation`: on the complete row
`2024-01-15,Push-ups,0,-1` (reps column 3, setNumber column 2) the run
aborts citing line 2 because the reps value `-1` is negative. -/
theorem C4_witness :
    processWorkoutRow
        ({ date := 0, exerciseName := 1, exerciseCategory := none,
           setNumber := 2, reps := 3, setNotes := none, workoutNotes := none })
        isoParseDate 0 1 "2024-01-15,Push-ups,0,-1".data (initState []) =
      .error "Invalid reps \"-1\" on line 2" :=
  (C4_reps_setNumber_validation
    ({ date := 0, exerciseName := 1, exerciseCategory := none,
       setNumber := 2, reps := 3, setNotes := none, workoutNotes := none })
    isoParseDate 0 1 "2024-01-15,Push-ups,0,-1".data (initState [])
    (by decide) (by decide) (by decide) (by decide) (by decide) (by decide)).2.1
    (by decide)

/-- C10: a row shorter than a resolved column index never aborts
either importer: in the exercise importer a missing category cell defaults the
category to `full-body` and a missing description cell leaves the
description absent, and in the workout importer a row whose date,
exerciseName, reps or setNumber cell is missing is skipped silently,
the state unchanged. -/
theorem C10_short_rows_never_abort :
    (∀ nIdx dIdx cIdx raw row,
      (parseCSVLine (jsTrimList raw)).get? cIdx = none →
      processExerciseRow nIdx dIdx cIdx raw = some row →
      row.category = Category.fullBody) ∧
    (∀ nIdx j cIdx raw row,
      (parseCSVLine (jsTrimList raw)).get? j = none →
      processExerciseRow nIdx (some j) cIdx raw = some row →
      row.description = none) ∧
    (∀ idx pd now i raw st,
      ((parseCSVLine (jsTrimList raw)).get? idx.date = none ∨
        (parseCSVLine (jsTrimList raw)).get? idx.exerciseName = none ∨
        (parseCSVLine (jsTrimList raw)).get? idx.reps = none ∨
        (parseCSVLine (jsTrimList raw)).get? idx.setNumber = none) →
      processWorkoutRow idx pd now i raw st = .ok st) := by
  refine ⟨?_, ?_, ?_⟩
  · intro nIdx dIdx cIdx raw row hc hrow
    simp only [processExerciseRow, hc, Option.map_none'] at hrow
    split at hrow
    · exact Option.noConfusion hrow
    · split at hrow
      · exact Option.noConfusion hrow
      · cases hrow
        rfl
  · intro nIdx j cIdx raw row hd hrow
    simp only [processExerciseRow, hd, Option.map_none'] at hrow
    split at hrow
    · exact Option.noConfusion hrow
    · split at hrow
      · exact Option.noConfusion hrow
      · cases hrow
        rfl
  · intro idx pd now i raw st h
    simp only [processWorkoutRow]
    split
    · rfl
    · simp only [List.get?_eq_getElem?] at h
      rw [if_pos (by rcases h with h | h | h | h <;> simp [optField, h])]

/-- `findOrCreateExercise` never touches the caller's catalog. -/
theorem catalog_findOrCreateExercise (idx : WorkoutHeaderIdx) (now : Nat)
    (values : List String) (name : String) (st : ParseState) :
    (findOrCreateExercise idx now values name st).2.catalog = st.catalog := by
  rcases hl : st.exerciseMap.lookup (strLower name) with _ | ex <;>
    simp [findOrCreateExercise, hl]

/-- `addSetToDay` never touches the caller's catalog. -/
theorem catalog_addSetToDay (k : String) (s : PendingSet) (st : ParseState) :
    (addSetToDay k s st).catalog = st.catalog := by
  simp only [addSetToDay]
  split <;> rfl

/-- `updateWorkoutNotes` never touches the caller's catalog. -/
theorem catalog_updateWorkoutNotes (idx : WorkoutHeaderIdx) (values : List String)
    (k : String) (st : ParseState) :
    (updateWorkoutNotes idx values k st).catalog = st.catalog := by
  rcases hw : idx.workoutNotes with _ | j <;> simp only [updateWorkoutNotes, hw]
  split <;> rfl

/-- One accepted or skipped row leaves the catalog component of the
state exactly as it was. -/
theorem catalog_processWorkoutRow (idx : WorkoutHeaderIdx) (pd : String → Option String)
    (now i : Nat) (raw : List Char) (st st' : ParseState) :
    processWorkoutRow idx pd now i raw st = .ok st' → st'.catalog = st.catalog := by
  intro h
  simp only [processWorkoutRow] at h
  repeat' split at h
  all_goals try exact Except.noConfusion h
  all_goals injection h with h2
  all_goals subst h2
  all_goals simp [catalog_updateWorkoutNotes, catalog_addSetToDay, catalog_findOrCreateExercise]

/-- C9: the caller-supplied exercise catalog is left unchanged by a
run of the importer: the row loop starts from a state whose catalog component is
the caller's array, every row step preserves it (newly minted exercises
go only to the working map and the separate `newExercises` output), so
any state an accepted run ends in carries the caller's catalog
untouched. -/
theorem C9_catalog_not_mutated :
    (∀ idx pd now i raw st st',
      processWorkoutRow idx pd now i raw st = .ok st' → st'.catalog = st.catalog) ∧
    (∀ idx pd now ls i st st',
      runWorkoutRows idx pd now ls i st = .ok st' → st'.catalog = st.catalog) ∧
    (∀ exercises, (initState exercises).catalog = exercises) := by
  refine ⟨catalog_processWorkoutRow, ?_, fun exercises => rfl⟩
  intro idx pd now ls
  induction ls with
  | nil =>
    intro i st st' h
    injection h with h2
    subst h2
    rfl
  | cons l ls ih =>
    intro i st st' h
    simp only [runWorkoutRows] at h
    split at h
    · exact Except.noConfusion h
    · rename_i st1 hst1
      rw [ih (i + 1) st1 st' h]
      exact catalog_processWorkoutRow idx pd now i l st st1 hst1

/-- Total number of pending sets accumulated across all day entries. -/
def pendingCount (st : ParseState) : Nat :=
  (st.workoutMap.map (fun e => e.2.sets.length)).sum

/-- Updating day entries without touching their set lists keeps the
total set count. -/
theorem sumSets_updateAssoc_of_sets_eq (k : String) (f : WorkoutData → WorkoutData)
    (hf : ∀ d, (f d).sets = d.sets) (m : List (String × WorkoutData)) :
    ((updateAssoc k f m).map (fun e => e.2.sets.length)).sum =
      (m.map (fun e => e.2.sets.length)).sum := by
  induction m with
  | nil => rfl
  | cons e rest ih =>
    obtain ⟨k', d⟩ := e
    simp only [updateAssoc]
    split
    · simp [hf]
    · simp only [List.map_cons, List.sum_cons, ih]

/-- Pushing one set onto an existing day entry raises the total set
count by one. -/
theorem sumSets_updateAssoc_push (k : String) (s : PendingSet)
    (m : List (String × WorkoutData)) (hm : (m.lookup k).isSome = true) :
    ((updateAssoc k (fun d => { d with sets := d.sets ++ [s] }) m).map
        (fun e => e.2.sets.length)).sum =
      (m.map (fun e => e.2.sets.length)).sum + 1 := by
  induction m with
  | nil => simp at hm
  | cons e rest ih =>
    obtain ⟨k', d⟩ := e
    simp only [updateAssoc]
    split
    · rename_i hk
      simp only [List.map_cons, List.sum_cons, List.length_append, List.length_cons,
        List.length_nil]
      omega
    · rename_i hk
      have hm' : (rest.lookup k).isSome = true := by
        rw [List.lookup_cons] at hm
        have : (k == k') = false := by
          cases hkk : k == k'
          · rfl
          · exact absurd (beq_iff_eq.mp hkk).symm (by simpa using hk)
        simpa [this] using hm
      simp only [List.map_cons, List.sum_cons, ih hm']
      omega

/-- `addSetToDay` adds exactly one pending set. -/
theorem pendingCount_addSetToDay (k : String) (s : PendingSet) (st : ParseState) :
    pendingCount (addSetToDay k s st) = pendingCount st + 1 := by
  simp only [addSetToDay, pendingCount]
  split
  · rename_i hm
    exact sumSets_updateAssoc_push k s st.workoutMap hm
  · simp

/-- `updateWorkoutNotes` never changes the number of pending sets. -/
theorem pendingCount_updateWorkoutNotes (idx : WorkoutHeaderIdx) (values : List String)
    (k : String) (st : ParseState) :
    pendingCount (updateWorkoutNotes idx values k st) = pendingCount st := by
  rcases hw : idx.workoutNotes with _ | j
  · simp [updateWorkoutNotes, hw]
  · simp only [updateWorkoutNotes, hw]
    split
    · rfl
    · exact sumSets_updateAssoc_of_sets_eq k _ (fun d => by split <;> rfl) st.workoutMap

/-- `findOrCreateExercise` never touches the day map. -/
theorem workoutMap_findOrCreateExercise (idx : WorkoutHeaderIdx) (now : Nat)
    (values : List String) (name : String) (st : ParseState) :
    (findOrCreateExercise idx now values name st).2.workoutMap = st.workoutMap := by
  rcases hl : st.exerciseMap.lookup (strLower name) with _ | ex <;>
    simp [findOrCreateExercise, hl]

/-- One row adds one pending set exactly when it passes the
completeness-and-validity test, and none otherwise. -/
theorem pendingCount_processWorkoutRow (idx : WorkoutHeaderIdx)
    (pd : String → Option String) (now i : Nat) (raw : List Char) (st st' : ParseState) :
    processWorkoutRow idx pd now i raw st = .ok st' →
    pendingCount st' = pendingCount st + (if rowAccepted idx pd raw then 1 else 0) := by
  intro h
  simp only [processWorkoutRow] at h
  simp only [rowAccepted]
  split at h
  · rename_i hb
    injection h with h2
    subst h2
    simp [hb]
  · rename_i hb
    split at h
    · rename_i hc
      injection h with h2
      subst h2
      simp [hb, hc]
    · rename_i hc
      split at h
      · exact Except.noConfusion h
      · rename_i dk hdk
        split at h
        · exact Except.noConfusion h
        · rename_i v hv
          split at h
          · exact Except.noConfusion h
          · rename_i hvneg
            split at h
            · exact Except.noConfusion h
            · rename_i w hw
              split at h
              · exact Except.noConfusion h
              · rename_i hwlow
                injection h with h2
                subst h2
                rw [pendingCount_updateWorkoutNotes, pendingCount_addSetToDay]
                have h1 : (0 : Int) ≤ v := by omega
                have h2 : (1 : Int) ≤ w := by omega
                simp only [pendingCount, workoutMap_findOrCreateExercise]
                have hb2 : ¬jsTrimList raw = [] := by simpa using hb
                have hc2 := hc
                simp only [Bool.or_eq_true, beq_iff_eq, not_or] at hc2
                simp [hdk, hv, hw, h1, h2, hb2, hc2.1.1.1, hc2.1.1.2, hc2.1.2, hc2.2]

/-- Across the whole row loop the pending-set total grows by the number
of accepted rows. -/
theorem pendingCount_runWorkoutRows (idx : WorkoutHeaderIdx) (pd : String → Option String)
    (now : Nat) :
    ∀ (ls : List (List Char)) (i : Nat) (st st' : ParseState),
    runWorkoutRows idx pd now ls i st = .ok st' →
    pendingCount st' = pendingCount st + ls.countP (rowAccepted idx pd) := by
  intro ls
  induction ls with
  | nil =>
    intro i st st' h
    injection h with h2
    subst h2
    simp
  | cons l ls ih =>
    intro i st st' h
    simp only [runWorkoutRows] at h
    split at h
    · exact Except.noConfusion h
    · rename_i st1 hst1
      rw [ih (i + 1) st1 st' h, pendingCount_processWorkoutRow idx pd now i l st st1 hst1,
        List.countP_cons]
      omega

/-- Stable insertion adds exactly one element. -/
theorem length_stableInsert {α : Type} (le : α → α → Bool) (x : α) (l : List α) :
    (stableInsert le x l).length = l.length + 1 := by
  induction l with
  | nil => rfl
  | cons y ys ih =>
    simp only [stableInsert]
    split
    · simp
    · simp [ih]

/-- The stable sort is length-preserving. -/
theorem length_stableSort {α : Type} (le : α → α → Bool) (l : List α) :
    (stableSort le l).length = l.length := by
  induction l with
  | nil => rfl
  | cons x xs ih => simp [stableSort, length_stableInsert, ih]

/-- Total number of sets held across exercise groups. -/
def sumGroups (g : List (String × List PendingSet)) : Nat :=
  (g.map (fun e => e.2.length)).sum

/-- Pushing one set into the day's groups grows the total by one. -/
theorem sumGroups_addToGroup (g : List (String × List PendingSet)) (s : PendingSet) :
    sumGroups (addToGroup g s) = sumGroups g + 1 := by
  induction g with
  | nil => rfl
  | cons e rest ih =>
    obtain ⟨k, ss⟩ := e
    simp only [addToGroup]
    split
    · simp only [sumGroups, List.map_cons, List.sum_cons, List.length_append,
        List.length_cons, List.length_nil]
      omega
    · simp only [sumGroups, List.map_cons, List.sum_cons] at ih ⊢
      omega

/-- Grouping preserves the total number of sets. -/
theorem sumGroups_foldl_addToGroup :
    ∀ (sets : List PendingSet) (g : List (String × List PendingSet)),
    sumGroups (sets.foldl addToGroup g) = sumGroups g + sets.length := by
  intro sets
  induction sets with
  | nil => intro g; simp
  | cons s rest ih =>
    intro g
    simp only [List.foldl_cons, List.length_cons]
    rw [ih, sumGroups_addToGroup]
    omega

/-- The ordering pass emits exactly the accumulated sets (in number). -/
theorem length_buildOrderedSets (sets : List PendingSet) :
    (buildOrderedSets sets).length = sets.length := by
  simp only [buildOrderedSets, List.length_flatten, List.map_map]
  have h : ((groupByName sets).map (List.length ∘ fun g => stableSort setNumLE g.2)) =
      (groupByName sets).map (fun e => e.2.length) :=
    List.map_congr_left (fun g _ => length_stableSort setNumLE g.2)
  rw [h]
  have h2 := sumGroups_foldl_addToGroup sets []
  simp only [sumGroups, groupByName, List.map_nil, List.sum_nil, Nat.zero_add] at h2 ⊢
  omega

/-- One built workout holds as many sets as its day accumulated. -/
theorem sets_length_buildWorkout (n : Nat) (e : String × WorkoutData) :
    (buildWorkout n e).1.sets.length = e.2.sets.length := by
  simp [buildWorkout, List.enum, length_buildOrderedSets]

/-- The built workouts hold as many sets in total as the day map. -/
theorem sum_sets_buildWorkouts :
    ∀ (m : List (String × WorkoutData)) (n : Nat),
    ((buildWorkouts n m).map (fun w => w.sets.length)).sum =
      (m.map (fun e => e.2.sets.length)).sum := by
  intro m
  induction m with
  | nil => intro n; rfl
  | cons e rest ih =>
    intro n
    simp only [buildWorkouts, List.map_cons, List.sum_cons]
    rw [sets_length_buildWorkout, ih]

/-- C2: for every accepted workout CSV input, the total number of
emitted `WorkoutSet` records across all returned workouts equals the
number of data rows that pass the completeness check (non-blank line,
non-empty date/exerciseName/reps/setNumber cells) and carry a valid
date and valid integer reps/setNumber values. -/
theorem C2_set_count :
    ∀ (pd : String → Option String) (now : Nat) (csv : String)
      (exercises : List Exercise) (idx : WorkoutHeaderIdx)
      (ws : List Workout) (ne : List Exercise),
    resolveWorkoutHeaders (headersOf (linesOf csv)) = .ok idx →
    parseWorkoutsCSV pd now csv exercises = .ok (ws, ne) →
    (ws.map (fun w => w.sets.length)).sum =
      (linesOf csv).tail.countP (rowAccepted idx pd) := by
  intro pd now csv exercises idx ws ne hidx h
  simp only [parseWorkoutsCSV, hidx] at h
  split at h
  · exact Except.noConfusion h
  · split at h
    · exact Except.noConfusion h
    · rename_i st hst
      injection h with h2
      injection h2 with hws hne
      subst hws
      rw [sum_sets_buildWorkouts]
      have hp := pendingCount_runWorkoutRows idx pd now (linesOf csv).tail 1
        (initState exercises) st hst
      simpa [pendingCount, initState] using hp

/-- Instance of `C2_set_count` on a one-row file: one emitted set, one
accepted row. -/
theorem C2_witness :
    (([{ id := 1, date := "2024-01-15",
         sets := [{ id := 2, exerciseId := 0, reps := 5, notes := none }],
         notes := none }] : List Workout).map (fun w => w.sets.length)).sum =
      (linesOf "date,exerciseName,setNumber,reps\n2024-01-15,A,1,5").tail.countP
        (rowAccepted
          ({ date := 0, exerciseName := 1, exerciseCategory := none,
             setNumber := 2, reps := 3, setNotes := none, workoutNotes := none })
          isoParseDate) :=
  C2_set_count isoParseDate 0 "date,exerciseName,setNumber,reps\n2024-01-15,A,1,5" []
    ({ date := 0, exerciseName := 1, exerciseCategory := none,
       setNumber := 2, reps := 3, setNotes := none, workoutNotes := none })
    [{ id := 1, date := "2024-01-15",
       sets := [{ id := 2, exerciseId := 0, reps := 5, notes := none }],
       notes := none }]
    [{ id := 0, name := "A", category := Category.fullBody, createdAt := 0 }]
    (by decide) (by decide)

/-- Membership after first-seen deduplication with any accumulator. -/
theorem mem_foldl_insertIfNew {β : Type} [BEq β] [LawfulBEq β] :
    ∀ (l : List β) (acc : List β) (x : β),
    x ∈ l.foldl insertIfNew acc ↔ x ∈ acc ∨ x ∈ l := by
  intro l
  induction l with
  | nil => intro acc x; simp
  | cons y ys ih =>
    intro acc x
    simp only [List.foldl_cons, ih]
    simp only [insertIfNew]
    constructor
    · intro h
      split at h
      · rcases h with h | h
        · exact Or.inl h
        · exact Or.inr (List.mem_cons_of_mem y h)
      · rcases h with h | h
        · rcases List.mem_append.mp h with h | h
          · exact Or.inl h
          · simp only [List.mem_singleton] at h
            exact Or.inr (h ▸ List.mem_cons_self y ys)
        · exact Or.inr (List.mem_cons_of_mem y h)
    · intro h
      split
      · rename_i hcon
        rcases h with h | h
        · exact Or.inl h
        · rcases List.mem_cons.mp h with h | h
          · subst h
            exact Or.inl (by simpa using hcon)
          · exact Or.inr h
      · rcases h with h | h
        · exact Or.inl (List.mem_append_left _ h)
        · rcases List.mem_cons.mp h with h | h
          · exact Or.inl (List.mem_append_right _ (by simp [h]))
          · exact Or.inr h

/-- First-seen deduplication keeps exactly the members. -/
theorem mem_dedupFirst {β : Type} [BEq β] [LawfulBEq β] {l : List β} {x : β} :
    x ∈ dedupFirst l ↔ x ∈ l := by
  simpa using mem_foldl_insertIfNew l [] x

/-- First-seen deduplication never repeats a value. -/
theorem nodup_foldl_insertIfNew {β : Type} [BEq β] [LawfulBEq β] :
    ∀ (l : List β) (acc : List β), acc.Nodup → (l.foldl insertIfNew acc).Nodup := by
  intro l
  induction l with
  | nil => intro acc h; simpa using h
  | cons y ys ih =>
    intro acc h
    simp only [List.foldl_cons]
    apply ih
    simp only [insertIfNew]
    split
    · exact h
    · rename_i hcon
      refine h.append (List.nodup_singleton y) ?_
      intro a ha hay
      simp only [List.mem_singleton] at hay
      subst hay
      exact (by simpa using hcon : ¬ a ∈ acc) ha

/-- `dedupFirst` yields a list without duplicates. -/
theorem nodup_dedupFirst {β : Type} [BEq β] [LawfulBEq β] (l : List β) :
    (dedupFirst l).Nodup :=
  nodup_foldl_insertIfNew l [] List.nodup_nil

/-- `dedupFirst` over a snoc is one insertion step. -/
theorem dedupFirst_append_singleton {β : Type} [BEq β] (l : List β) (x : β) :
    dedupFirst (l ++ [x]) = insertIfNew (dedupFirst l) x := by
  simp [dedupFirst, List.foldl_append]

/-- A set whose exercise name heads no group is appended as a new
trailing group. -/
theorem addToGroup_of_not_mem (s : PendingSet) :
    ∀ (g : List (String × List PendingSet)),
    (∀ e ∈ g, e.1 ≠ s.exerciseName) →
    addToGroup g s = g ++ [(s.exerciseName, [s])] := by
  intro g
  induction g with
  | nil => intro h; rfl
  | cons e rest ih =>
    intro h
    obtain ⟨k, ss⟩ := e
    simp only [addToGroup]
    rw [if_neg, ih (fun e he => h e (List.mem_cons_of_mem _ he))]
    · rfl
    · simpa using h (k, ss) (List.mem_cons_self _ _)

/-- With duplicate-free keys, pushing a set whose name is present
appends it to exactly that group, in place. -/
theorem addToGroup_of_mem (s : PendingSet) :
    ∀ (g : List (String × List PendingSet)),
    (g.map Prod.fst).Nodup → s.exerciseName ∈ g.map Prod.fst →
    addToGroup g s =
      g.map (fun e => if e.1 = s.exerciseName then (e.1, e.2 ++ [s]) else e) := by
  intro g
  induction g with
  | nil => intro _ hmem; simp at hmem
  | cons e rest ih =>
    intro hnd hmem
    obtain ⟨k, ss⟩ := e
    simp only [List.map_cons, List.nodup_cons] at hnd
    by_cases hk : k = s.exerciseName
    · subst hk
      simp only [addToGroup, if_pos (beq_iff_eq.mpr rfl), List.map_cons, if_pos rfl]
      have hrest : rest.map
          (fun e => if e.1 = s.exerciseName then (e.1, e.2 ++ [s]) else e) = rest := by
        have hrw : ∀ e ∈ rest,
            (if e.1 = s.exerciseName then (e.1, e.2 ++ [s]) else e) = id e := by
          intro e he
          rw [if_neg, id]
          intro hek
          exact hnd.1 (hek ▸ List.mem_map_of_mem Prod.fst he)
        rw [List.map_congr_left hrw, List.map_id]
      rw [hrest]
      simp
    · simp only [List.map_cons] at hmem
      rcases List.mem_cons.mp hmem with h | h
      · exact absurd h.symm hk
      · simp only [addToGroup, List.map_cons]
        rw [if_neg (by simpa using hk), if_neg hk, ih hnd.2 h]

/-- Closed form of the day's exercise groups: one group per distinct
exercise name in first-seen order, holding that name's sets in their
original order. -/
def groupCanon (sets : List PendingSet) : List (String × List PendingSet) :=
  (dedupFirst (sets.map (fun t => t.exerciseName))).map
    (fun k => (k, sets.filter (fun t => t.exerciseName == k)))

/-- The group keys are the distinct names in first-seen order. -/
theorem map_fst_groupCanon (sets : List PendingSet) :
    (groupCanon sets).map Prod.fst = dedupFirst (sets.map (fun t => t.exerciseName)) := by
  induction sets with
  | nil => rfl
  | cons _ _ _ => simp [groupCanon, List.map_map, Function.comp_def]

/-- One push step agrees with the closed form. -/
theorem addToGroup_groupCanon (pre : List PendingSet) (s : PendingSet) :
    addToGroup (groupCanon pre) s = groupCanon (pre ++ [s]) := by
  by_cases hmem : s.exerciseName ∈ pre.map (fun t => t.exerciseName)
  · have hnd : ((groupCanon pre).map Prod.fst).Nodup := by
      rw [map_fst_groupCanon]
      exact nodup_dedupFirst _
    have hm2 : s.exerciseName ∈ (groupCanon pre).map Prod.fst := by
      rw [map_fst_groupCanon]
      exact mem_dedupFirst.mpr hmem
    rw [addToGroup_of_mem s _ hnd hm2]
    have hdk : dedupFirst ((pre ++ [s]).map (fun t => t.exerciseName)) =
        dedupFirst (pre.map (fun t => t.exerciseName)) := by
      rw [List.map_append, List.map_singleton, dedupFirst_append_singleton, insertIfNew,
        if_pos (by simpa [List.elem_iff] using mem_dedupFirst.mpr hmem)]
    unfold groupCanon
    rw [hdk, List.map_map]
    apply List.map_congr_left
    intro k hk
    simp only [Function.comp]
    by_cases hks : k = s.exerciseName
    · subst hks
      rw [if_pos rfl, List.filter_append]
      simp
    · rw [if_neg hks, List.filter_append]
      have hone : [s].filter (fun t => t.exerciseName == k) = [] := by
        simp only [List.filter_eq_nil_iff, List.mem_singleton]
        intro t ht
        subst ht
        simpa using fun h => hks h.symm
      simp [hone]
  · have hfst : ∀ e ∈ groupCanon pre, e.1 ≠ s.exerciseName := by
      intro e he hek
      have hmm : e.1 ∈ (groupCanon pre).map Prod.fst := List.mem_map_of_mem Prod.fst he
      rw [map_fst_groupCanon] at hmm
      exact hmem (hek ▸ mem_dedupFirst.mp hmm)
    rw [addToGroup_of_not_mem s _ hfst]
    unfold groupCanon
    rw [List.map_append, List.map_singleton, dedupFirst_append_singleton, insertIfNew,
      if_neg (by simpa [List.elem_iff] using fun h => hmem (mem_dedupFirst.mp h)),
      List.map_append, List.map_singleton]
    congr 1
    · apply List.map_congr_left
      intro k hk
      have hk' : k ≠ s.exerciseName := fun h => hmem (h ▸ mem_dedupFirst.mp hk)
      rw [List.filter_append]
      have hone : [s].filter (fun t => t.exerciseName == k) = [] := by
        simp only [List.filter_eq_nil_iff, List.mem_singleton]
        intro t ht
        subst ht
        simpa using fun h => hk' h.symm
      simp [hone]
    · have h1 : pre.filter (fun t => t.exerciseName == s.exerciseName) = [] := by
        refine List.filter_eq_nil_iff.mpr ?_
        intro t ht hbeq
        exact hmem ((beq_iff_eq.mp hbeq) ▸ List.mem_map_of_mem (fun t => t.exerciseName) ht)
      rw [List.filter_append, h1]
      simp

/-- The grouping loop computes the closed form. -/
theorem groupByName_eq_groupCanon (sets : List PendingSet) :
    groupByName sets = groupCanon sets := by
  have key : ∀ (rest pre : List PendingSet),
      List.foldl addToGroup (groupCanon pre) rest = groupCanon (pre ++ rest) := by
    intro rest
    induction rest with
    | nil => intro pre; simp
    | cons s rest ih =>
      intro pre
      simp only [List.foldl_cons]
      rw [addToGroup_groupCanon, ih, ← List.append_cons]
  have h0 : groupCanon [] = ([] : List (String × List PendingSet)) := rfl
  have := key sets []
  rw [h0] at this
  simpa [groupByName] using this

/-- Membership is preserved by stable insertion. -/
theorem mem_stableInsert {α : Type} (le : α → α → Bool) (a x : α) :
    ∀ (l : List α), x ∈ stableInsert le a l ↔ x = a ∨ x ∈ l := by
  intro l
  induction l with
  | nil => simp [stableInsert]
  | cons y ys ih =>
    simp only [stableInsert]
    split
    · simp [List.mem_cons]
    · simp only [List.mem_cons, ih]
      tauto

/-- Membership is preserved by the stable sort. -/
theorem mem_stableSort {α : Type} (le : α → α → Bool) (x : α) :
    ∀ (l : List α), x ∈ stableSort le l ↔ x ∈ l := by
  intro l
  induction l with
  | nil => simp [stableSort]
  | cons y ys ih =>
    simp only [stableSort, mem_stableInsert, ih, List.mem_cons]

/-- Stable insertion into a sorted list stays sorted, for a transitive
and total comparator. -/
theorem pairwise_stableInsert {α : Type} (le : α → α → Bool)
    (htrans : ∀ a b c, le a b = true → le b c = true → le a c = true)
    (htot : ∀ a b, le a b = true ∨ le b a = true) (a : α) :
    ∀ (l : List α), l.Pairwise (fun x y => le x y = true) →
      (stableInsert le a l).Pairwise (fun x y => le x y = true) := by
  intro l
  induction l with
  | nil => intro _; simp [stableInsert]
  | cons y ys ih =>
    intro hp
    rw [List.pairwise_cons] at hp
    simp only [stableInsert]
    split
    · rename_i hay
      rw [List.pairwise_cons]
      refine ⟨?_, List.pairwise_cons.mpr hp⟩
      intro z hz
      rcases List.mem_cons.mp hz with hz | hz
      · exact hz ▸ hay
      · exact htrans a y z hay (hp.1 z hz)
    · rename_i hay
      rw [List.pairwise_cons]
      refine ⟨?_, ih hp.2⟩
      intro z hz
      rcases (mem_stableInsert le a z ys).mp hz with hz | hz
      · subst hz
        rcases htot y z with h | h
        · exact h
        · exact absurd h hay
      · exact hp.1 z hz

/-- The stable sort sorts, for a transitive and total comparator. -/
theorem pairwise_stableSort {α : Type} (le : α → α → Bool)
    (htrans : ∀ a b c, le a b = true → le b c = true → le a c = true)
    (htot : ∀ a b, le a b = true ∨ le b a = true) :
    ∀ (l : List α), (stableSort le l).Pairwise (fun x y => le x y = true) := by
  intro l
  induction l with
  | nil => simp [stableSort]
  | cons y ys ih => exact pairwise_stableInsert le htrans htot y _ ih

/-- Elements satisfying `p` all sit `le`-below the inserted element's
peers: inserting an element satisfying `p` puts it in front of every
later `p`-element, so the `p`-sublist gains it at the head. -/
theorem filter_stableInsert_pos {α : Type} (le : α → α → Bool) (p : α → Bool) (a : α)
    (hpa : p a = true) :
    ∀ (l : List α), (∀ z ∈ l, p z = true → le a z = true) →
      (stableInsert le a l).filter p = a :: l.filter p := by
  intro l
  induction l with
  | nil => intro _; simp [stableInsert, hpa]
  | cons y ys ih =>
    intro hz
    simp only [stableInsert]
    split
    · simp [List.filter_cons, hpa]
    · rename_i hay
      cases hpy : p y with
      | true =>
        exact absurd (hz y (List.mem_cons_self y ys) hpy) (by simpa using hay)
      | false =>
        simp only [List.filter_cons, hpy, if_neg]
        rw [ih (fun z hzz => hz z (List.mem_cons_of_mem y hzz))]
        simp [hpy]

/-- Inserting an element not satisfying `p` leaves the `p`-sublist
unchanged. -/
theorem filter_stableInsert_neg {α : Type} (le : α → α → Bool) (p : α → Bool) (a : α)
    (hpa : p a = false) :
    ∀ (l : List α), (stableInsert le a l).filter p = l.filter p := by
  intro l
  induction l with
  | nil => simp [stableInsert, hpa]
  | cons y ys ih =>
    simp only [stableInsert]
    split
    · simp [List.filter_cons, hpa]
    · cases hpy : p y <;> simp [List.filter_cons, hpy, ih]

/-- Stability of the sort: when all `p`-elements are mutually
`le`-comparable in both directions (here: equal sort keys), the sort
leaves the `p`-sublist in its original order. -/
theorem filter_stableSort {α : Type} (le : α → α → Bool) (p : α → Bool)
    (hle : ∀ a b, p a = true → p b = true → le a b = true) :
    ∀ (l : List α), (stableSort le l).filter p = l.filter p := by
  intro l
  induction l with
  | nil => rfl
  | cons y ys ih =>
    simp only [stableSort]
    cases hpy : p y with
    | true =>
      rw [filter_stableInsert_pos le p y hpy _
        (fun z hzz hpz => hle y z hpy hpz), ih]
      simp [List.filter_cons, hpy]
    | false =>
      rw [filter_stableInsert_neg le p y hpy, ih]
      simp [List.filter_cons, hpy]

/-- The comparator on set numbers is transitive. -/
theorem setNumLE_trans :
    ∀ a b c, setNumLE a b = true → setNumLE b c = true → setNumLE a c = true := by
  intro a b c
  simp only [setNumLE, decide_eq_true_eq]
  omega

/-- The comparator on set numbers is total. -/
theorem setNumLE_total : ∀ a b, setNumLE a b = true ∨ setNumLE b a = true := by
  intro a b
  simp only [setNumLE, decide_eq_true_eq]
  omega

/-- Every element of a sorted exercise group carries that group's
name. -/
theorem name_mem_sorted_group (sets : List PendingSet) (k : String) :
    ∀ x ∈ stableSort setNumLE (sets.filter (fun t => t.exerciseName == k)),
      x.exerciseName = k := by
  intro x hx
  rw [mem_stableSort] at hx
  exact beq_iff_eq.mp (List.mem_filter.mp hx).2

/-- Filtering the flattened sorted groups by one name selects exactly
that name's sorted group (or nothing when the name heads no group). -/
theorem filter_flatten_groups (sets : List PendingSet) (k : String) :
    ∀ (ks : List String), ks.Nodup →
    ((ks.map (fun kj =>
        stableSort setNumLE (sets.filter (fun t => t.exerciseName == kj)))).flatten).filter
        (fun t => t.exerciseName == k) =
      if k ∈ ks then stableSort setNumLE (sets.filter (fun t => t.exerciseName == k))
      else [] := by
  intro ks
  induction ks with
  | nil => intro _; simp
  | cons kj ks ih =>
    intro hnd
    rw [List.nodup_cons] at hnd
    simp only [List.map_cons, List.flatten_cons, List.filter_append, ih hnd.2]
    by_cases hkj : kj = k
    · subst hkj
      rw [if_neg hnd.1, if_pos (List.mem_cons_self kj ks)]
      have hall : ∀ x ∈ stableSort setNumLE (sets.filter (fun t => t.exerciseName == kj)),
          (x.exerciseName == kj) = true :=
        fun x hx => beq_iff_eq.mpr (name_mem_sorted_group sets kj x hx)
      rw [List.filter_eq_self.mpr hall]
      simp
    · have hall : ∀ x ∈ stableSort setNumLE (sets.filter (fun t => t.exerciseName == kj)),
          ¬ (x.exerciseName == k) = true := by
        intro x hx h
        exact hkj ((name_mem_sorted_group sets kj x hx) ▸ beq_iff_eq.mp h)
      rw [List.filter_eq_nil_iff.mpr hall, List.nil_append]
      have hiff : (k ∈ kj :: ks) ↔ (k ∈ ks) := by
        simp only [List.mem_cons, or_iff_right_iff_imp]
        intro h
        exact absurd h.symm hkj
      rw [if_congr hiff rfl rfl]

/-- The ordered day sequence, restricted to one exercise name, is that
name's sets stably sorted by set number. -/
theorem filter_buildOrderedSets (sets : List PendingSet) (k : String) :
    (buildOrderedSets sets).filter (fun t => t.exerciseName == k) =
      stableSort setNumLE (sets.filter (fun t => t.exerciseName == k)) := by
  rw [buildOrderedSets, groupByName_eq_groupCanon, groupCanon, List.map_map]
  have hcomp : ((fun g : String × List PendingSet => stableSort setNumLE g.2) ∘
      fun k => (k, sets.filter (fun t => t.exerciseName == k))) =
      fun kj => stableSort setNumLE (sets.filter (fun t => t.exerciseName == kj)) := rfl
  rw [hcomp, filter_flatten_groups sets k _ (nodup_dedupFirst _)]
  by_cases hk : k ∈ dedupFirst (sets.map (fun t => t.exerciseName))
  · rw [if_pos hk]
  · rw [if_neg hk]
    have hnil : sets.filter (fun t => t.exerciseName == k) = [] := by
      refine List.filter_eq_nil_iff.mpr ?_
      intro t ht hbeq
      exact hk (mem_dedupFirst.mpr
        ((beq_iff_eq.mp hbeq) ▸ List.mem_map_of_mem (fun t => t.exerciseName) ht))
    rw [hnil]
    rfl

/-- Folding `insertIfNew` over copies of a value already present
changes nothing. -/
theorem foldl_insertIfNew_replicate {β : Type} [BEq β] [LawfulBEq β] (k : β) :
    ∀ (m : Nat) (acc : List β), k ∈ acc →
    List.foldl insertIfNew acc (List.replicate m k) = acc := by
  intro m
  induction m with
  | zero => intro acc _; rfl
  | succ m ih =>
    intro acc h
    rw [List.replicate_succ, List.foldl_cons]
    have heq : insertIfNew acc k = acc := by
      rw [insertIfNew, if_pos (by simpa [List.elem_iff] using h)]
    rw [heq]
    exact ih acc h

/-- First-seen deduplication of a concatenation of nonempty constant
runs with duplicate-free values recovers the values in order. -/
theorem foldl_insertIfNew_flatten_replicate {β : Type} [BEq β] [LawfulBEq β] :
    ∀ (ks : List β) (f : β → List β) (acc : List β), ks.Nodup →
    (∀ k ∈ ks, k ∉ acc) → (∀ k ∈ ks, ∃ m, f k = List.replicate (m + 1) k) →
    List.foldl insertIfNew acc ((ks.map f).flatten) = acc ++ ks := by
  intro ks
  induction ks with
  | nil => intro f acc _ _ _; simp
  | cons k ks ih =>
    intro f acc hnd hacc hf
    rw [List.map_cons, List.flatten_cons, List.foldl_append]
    obtain ⟨m, hm⟩ := hf k (List.mem_cons_self k ks)
    rw [hm, List.replicate_succ, List.foldl_cons]
    have h1 : insertIfNew acc k = acc ++ [k] := by
      rw [insertIfNew, if_neg]
      simpa [List.elem_iff] using hacc k (List.mem_cons_self k ks)
    rw [h1, foldl_insertIfNew_replicate k m _ (List.mem_append_right _ (by simp))]
    rw [List.nodup_cons] at hnd
    rw [ih f (acc ++ [k]) hnd.2 ?_ (fun k' hk' => hf k' (List.mem_cons_of_mem _ hk')),
      ← List.append_cons]
    intro k' hk' hmemk
    rcases List.mem_append.mp hmemk with h | h
    · exact hacc k' (List.mem_cons_of_mem _ hk') h
    · rw [List.mem_singleton] at h
      subst h
      exact hnd.1 hk'

/-- The ordered day sequence presents the distinct exercise names in
the same first-seen order as the accumulated rows. -/
theorem dedupFirst_buildOrderedSets (sets : List PendingSet) :
    dedupFirst ((buildOrderedSets sets).map (fun t => t.exerciseName)) =
      dedupFirst (sets.map (fun t => t.exerciseName)) := by
  rw [buildOrderedSets, groupByName_eq_groupCanon, groupCanon, List.map_map]
  have hcomp : ((fun g : String × List PendingSet => stableSort setNumLE g.2) ∘
      fun k => (k, sets.filter (fun t => t.exerciseName == k))) =
      fun kj => stableSort setNumLE (sets.filter (fun t => t.exerciseName == kj)) := rfl
  rw [hcomp, List.map_flatten, List.map_map]
  show List.foldl insertIfNew []
      ((List.map ((fun l : List PendingSet => l.map (fun t => t.exerciseName)) ∘
        fun kj => stableSort setNumLE (sets.filter (fun t => t.exerciseName == kj)))
        (dedupFirst (sets.map (fun t => t.exerciseName)))).flatten) = _
  rw [foldl_insertIfNew_flatten_replicate _ _ [] (nodup_dedupFirst _)
    (fun _ _ h => absurd h (List.not_mem_nil _)) ?_]
  · simp
  · intro k hk
    have hall : ∀ x ∈ (stableSort setNumLE
        (sets.filter (fun t => t.exerciseName == k))).map (fun t => t.exerciseName),
        x = k := by
      intro x hx
      obtain ⟨t, ht, rfl⟩ := List.mem_map.mp hx
      exact name_mem_sorted_group sets k t ht
    have hrep := List.eq_replicate_of_mem hall
    have hkn : k ∈ sets.map (fun t => t.exerciseName) := mem_dedupFirst.mp hk
    obtain ⟨t, ht, htk⟩ := List.mem_map.mp hkn
    have hmemf : t ∈ sets.filter (fun u => u.exerciseName == k) :=
      List.mem_filter.mpr ⟨ht, beq_iff_eq.mpr htk⟩
    have hlen : 0 < ((stableSort setNumLE
        (sets.filter (fun t => t.exerciseName == k))).map (fun t => t.exerciseName)).length := by
      rw [List.length_map, length_stableSort]
      refine List.length_pos.mpr ?_
      intro hnil
      rw [hnil] at hmemf
      exact List.not_mem_nil t hmemf
    refine ⟨((stableSort setNumLE
      (sets.filter (fun t => t.exerciseName == k))).map (fun t => t.exerciseName)).length - 1,
      ?_⟩
    rw [Nat.sub_add_cancel hlen]
    exact hrep

/-- The projection of built workouts to their set payloads is exactly
the ordered day sequences, day by day. -/
theorem buildWorkouts_sets_projection :
    ∀ (m : List (String × WorkoutData)) (n : Nat),
    (buildWorkouts n m).map (fun w => w.sets.map (fun s => (s.exerciseId, s.reps, s.notes))) =
      m.map (fun e => (buildOrderedSets e.2.sets).map
        (fun t => (t.exerciseId, t.reps, t.notes))) := by
  intro m
  induction m with
  | nil => intro n; rfl
  | cons e rest ih =>
    intro n
    simp only [buildWorkouts, List.map_cons, ih]
    congr 1
    simp only [buildWorkout]
    rw [List.map_map]
    have hcomp : ((fun s : WorkoutSet => (s.exerciseId, s.reps, s.notes)) ∘
        fun p : Nat × PendingSet =>
          ({ id := n + 1 + p.1, exerciseId := p.2.exerciseId,
             reps := p.2.reps, notes := p.2.notes } : WorkoutSet)) =
        ((fun t : PendingSet => (t.exerciseId, t.reps, t.notes)) ∘ Prod.snd) := rfl
    rw [hcomp, ← List.map_map]
    congr 1
    exact List.enumFrom_map_snd 0 _

/-- C1 amended: within each returned Workout the emitted sequence is
grouped by the raw (trimmed, case-sensitive) exercise-name string of
the rows: sets sharing that name string are consecutive, each such
group is in non-decreasing setNumber order and stable on equal set
numbers, and the groups appear in the order each distinct name string
was first seen among the day's rows.  Because the grouping key is the
name string rather than the resolved exercise, rows naming the same
exercise with different capitalization form separate groups, so sets of
the same exercise need not be consecutive. -/
theorem C1_grouping_and_ordering :
    (∀ sets : List PendingSet,
      groupedKeys (fun t => t.exerciseName) (buildOrderedSets sets)) ∧
    (∀ (sets : List PendingSet) (k : String),
      ((buildOrderedSets sets).filter (fun t => t.exerciseName == k)).Pairwise
        (fun a b => a.setNumber ≤ b.setNumber)) ∧
    (∀ (sets : List PendingSet) (k : String) (n : Int),
      ((buildOrderedSets sets).filter (fun t => t.exerciseName == k)).filter
          (fun t => t.setNumber == n) =
        (sets.filter (fun t => t.exerciseName == k)).filter
          (fun t => t.setNumber == n)) ∧
    (∀ sets : List PendingSet,
      dedupFirst ((buildOrderedSets sets).map (fun t => t.exerciseName)) =
        dedupFirst (sets.map (fun t => t.exerciseName))) ∧
    (∀ (m : List (String × WorkoutData)) (n : Nat),
      (buildWorkouts n m).map
          (fun w => w.sets.map (fun s => (s.exerciseId, s.reps, s.notes))) =
        m.map (fun e => (buildOrderedSets e.2.sets).map
          (fun t => (t.exerciseId, t.reps, t.notes)))) := by
  refine ⟨?_, ?_, ?_, dedupFirst_buildOrderedSets, buildWorkouts_sets_projection⟩
  · intro sets
    unfold groupedKeys
    rw [dedupFirst_buildOrderedSets]
    have hmap : (dedupFirst (sets.map (fun t => t.exerciseName))).map
        (fun k => (buildOrderedSets sets).filter (fun t => t.exerciseName == k)) =
        (dedupFirst (sets.map (fun t => t.exerciseName))).map
          (fun k => stableSort setNumLE (sets.filter (fun t => t.exerciseName == k))) :=
      List.map_congr_left (fun k _ => filter_buildOrderedSets sets k)
    rw [hmap, buildOrderedSets, groupByName_eq_groupCanon, groupCanon, List.map_map]
    rfl
  · intro sets k
    rw [filter_buildOrderedSets]
    exact (pairwise_stableSort setNumLE setNumLE_trans setNumLE_total _).imp
      (fun h => by simpa [setNumLE] using h)
  · intro sets k n
    rw [filter_buildOrderedSets]
    refine filter_stableSort setNumLE (fun t => t.setNumber == n) ?_ _
    intro a b ha hb
    rw [beq_iff_eq] at ha hb
    simp only [setNumLE, decide_eq_true_eq, ha, hb]
    omega

/-- C1 counterexample: with an empty catalog and the rows Push-ups set
1, Squats set 1, push-ups set 2 on one day, both `Push-ups` rows
resolve to the same exercise (id 0) yet the emitted order is
Push-ups, Squats, push-ups — the two sets of exercise 0 are not
consecutive, because grouping is by the case-sensitive raw name
string. -/
theorem C1_counterexample :
    parseWorkoutsCSV isoParseDate 0
        "date,exerciseName,setNumber,reps\n2024-01-15,Push-ups,1,10\n2024-01-15,Squats,1,10\n2024-01-15,push-ups,2,8"
        [] =
      .ok ([{ id := 2, date := "2024-01-15",
              sets := [{ id := 3, exerciseId := 0, reps := 10, notes := none },
                       { id := 4, exerciseId := 1, reps := 10, notes := none },
                       { id := 5, exerciseId := 0, reps := 8, notes := none }],
              notes := none }],
           [{ id := 0, name := "Push-ups", category := Category.fullBody, createdAt := 0 },
            { id := 1, name := "Squats", category := Category.fullBody, createdAt := 0 }]) ∧
    ¬ groupedKeys (fun s : WorkoutSet => s.exerciseId)
        [{ id := 3, exerciseId := 0, reps := 10, notes := none },
         { id := 4, exerciseId := 1, reps := 10, notes := none },
         { id := 5, exerciseId := 0, reps := 8, notes := none }] := by
  constructor
  · decide
  · unfold groupedKeys
    decide

end CsvImport
